import Mathlib

/-!
# Verification of the Note-to-AI hybrid storage engine

Shallow embedding of the storage subsystem of the Note-to-AI vault
(`src/vault/storage/hybrid_engine.rs`, `lance_store.rs`, `duckdb_store.rs`
and `src/vault/indexer.rs`), with theorems settling the frozen claims
about score fusion, deletion, dimension validation, snippet generation,
re-indexing, ordering, error propagation and scan scheduling.

Scores are modelled as exact rationals (the source uses `f32`); strings
are modelled as lists of `Char` with explicit UTF-8 byte widths where the
source manipulates byte offsets.
-/

/-- Match type tag of a search result (`MatchType` in `storage/mod.rs`). -/
inductive MatchType where
  | semantic
  | fullText
  | tag
  | title
  | hybrid
deriving DecidableEq, Repr

/-- The fields of `SearchResult` (`storage/mod.rs`) that the merge logic of
`HybridStorageEngine::merge_search_results` reads or writes: the document
path (the merge key), the score, the match type, the optional matched
content, and the age in days of `modified_at` relative to `now`
(`(now - result.document.metadata.modified_at).num_days()`). -/
structure SearchResult where
  path : String
  score : ℚ
  matchType : MatchType
  matchedContent : Option String
  ageDays : ℤ
deriving DecidableEq, Repr

/-- Lookup in an association list modelling a `HashMap<String, _>`. -/
def msLookup {α : Type} (p : String) : List (String × α) → Option α
  | [] => none
  | (k, v) :: rest => if k = p then some v else msLookup p rest

/-- Insert-or-overwrite in an association list modelling `HashMap::insert`. -/
def msInsert {α : Type} (k : String) (v : α) : List (String × α) → List (String × α)
  | [] => [(k, v)]
  | (k', v') :: rest => if k' = k then (k, v) :: rest else (k', v') :: msInsert k v rest

/-- `hybrid_boost` in `merge_search_results`: `1.2` iff the request supplied
both a query vector and query text (`is_hybrid`), else `1.0`. -/
def hybridBoost (isHybrid : Bool) : ℚ := if isHybrid then 1.2 else 1.0

/-- Processing of one semantic result before insertion into `result_map`
(`result.score *= 1.0; if is_hybrid { result.match_type = Hybrid }`). -/
def semEntry (isHybrid : Bool) (r : SearchResult) : SearchResult :=
  { r with
    score := r.score * 1.0
    matchType := if isHybrid then .hybrid else r.matchType }

/-- Processing of one text-only result before insertion into `result_map`
(`result.score *= 0.8; if is_hybrid { result.match_type = Hybrid }`). -/
def textOnlyEntry (isHybrid : Bool) (r : SearchResult) : SearchResult :=
  { r with
    score := r.score * 0.8
    matchType := if isHybrid then .hybrid else r.matchType }

/-- Combination applied when a text result hits a document already present
in `result_map`: `existing.score = (existing.score + result.score * 0.8) *
hybrid_boost; existing.match_type = Hybrid`, and the matched content of the
text result is taken only when the existing entry has none. -/
def fuseBoth (isHybrid : Bool) (existing r : SearchResult) : SearchResult :=
  { existing with
    score := (existing.score + r.score * 0.8) * hybridBoost isHybrid
    matchType := .hybrid
    matchedContent := existing.matchedContent <|> r.matchedContent }

/-- One iteration of the text-results loop of `merge_search_results`. -/
def mergeTextStep (isHybrid : Bool) (m : List (String × SearchResult)) (r : SearchResult) :
    List (String × SearchResult) :=
  match msLookup r.path m with
  | some existing => msInsert r.path (fuseBoth isHybrid existing r) m
  | none => msInsert r.path (textOnlyEntry isHybrid r) m

/-- The contents of `result_map` after both loops of
`HybridStorageEngine::merge_search_results`: semantic results are inserted
first, then text results are merged in. -/
def resultMap (semanticResults textResults : List SearchResult) (isHybrid : Bool) :
    List (String × SearchResult) :=
  textResults.foldl (mergeTextStep isHybrid)
    (semanticResults.foldl (fun m r => msInsert r.path (semEntry isHybrid r) m) [])

/-- Recency boost of `merge_search_results`: `×1.1` when modified within 7
days, `×1.05` within 30 days, unchanged otherwise. -/
def applyRecency (r : SearchResult) : SearchResult :=
  if r.ageDays ≤ 7 then { r with score := r.score * 1.1 }
  else if r.ageDays ≤ 30 then { r with score := r.score * 1.05 }
  else r

/-- Stable descending insertion keyed by a rational score: the new element
goes after every already-placed element whose score is at least its own.
This reproduces Rust's stable `sort_by(|a, b| b.score.partial_cmp(&a.score))`
when elements are inserted in their original order. -/
def insertDescBy {α : Type} (f : α → ℚ) (r : α) : List α → List α
  | [] => [r]
  | x :: xs => if f r ≤ f x then x :: insertDescBy f r xs else r :: x :: xs

/-- Stable sort by descending score, processing the input left to right. -/
def stableSortDescBy {α : Type} (f : α → ℚ) (l : List α) : List α :=
  l.foldl (fun acc r => insertDescBy f r acc) []

/-- Tail of `merge_search_results`, applied to the sequence `values` that
`result_map.into_values()` yields: recency boost, stable sort by score
descending, truncation to `limit`.  The iteration order of the `HashMap` is
not specified, so `values` is a parameter; theorems relate it to
`resultMap` by permutation. -/
def mergeFinal (limit : ℕ) (values : List SearchResult) : List SearchResult :=
  (stableSortDescBy (fun r => r.score) (values.map applyRecency)).take limit

/-- First element of a list of search results carrying the given path
(models lookup of a document inside one backend's result list). -/
def findByPath (p : String) : List SearchResult → Option SearchResult
  | [] => none
  | r :: rest => if r.path = p then some r else findByPath p rest

/-! ## Association-map lemmas -/

theorem msLookup_msInsert_self {α : Type} (k : String) (v : α) (m : List (String × α)) :
    msLookup k (msInsert k v m) = some v := by
  induction m with
  | nil => simp [msInsert, msLookup]
  | cons hd t ih =>
    obtain ⟨k', v'⟩ := hd
    by_cases hk : k' = k
    · simp [msInsert, hk, msLookup]
    · simp [msInsert, hk, msLookup, ih]

theorem msLookup_msInsert_ne {α : Type} {k p : String} (h : k ≠ p) (v : α)
    (m : List (String × α)) : msLookup p (msInsert k v m) = msLookup p m := by
  induction m with
  | nil => simp [msInsert, msLookup, h]
  | cons hd t ih =>
    obtain ⟨k', v'⟩ := hd
    by_cases hk : k' = k
    · subst hk
      simp [msInsert, msLookup, h]
    · simp only [msInsert, if_neg hk, msLookup]
      by_cases hp : k' = p
      · simp [hp]
      · simp [hp, ih]

/-! ## Characterization of `result_map` (merge of `merge_search_results`) -/

theorem lookup_semFold_of_not_mem (hyb : Bool) (sem : List SearchResult)
    (m : List (String × SearchResult)) (p : String) (h : ∀ r ∈ sem, r.path ≠ p) :
    msLookup p (sem.foldl (fun m r => msInsert r.path (semEntry hyb r) m) m) = msLookup p m := by
  induction sem generalizing m with
  | nil => rfl
  | cons r rest ih =>
    rw [List.foldl_cons, ih _ (fun r' hr' => h r' (List.mem_cons_of_mem _ hr')),
      msLookup_msInsert_ne (h r (List.mem_cons_self _ _))]

theorem lookup_semFold (hyb : Bool) (sem : List SearchResult)
    (m : List (String × SearchResult)) (p : String)
    (h : (sem.map (fun r => r.path)).Nodup) :
    msLookup p (sem.foldl (fun m r => msInsert r.path (semEntry hyb r) m) m) =
      match findByPath p sem with
      | some r => some (semEntry hyb r)
      | none => msLookup p m := by
  induction sem generalizing m with
  | nil => rfl
  | cons r rest ih =>
    rw [List.map_cons, List.nodup_cons] at h
    rw [List.foldl_cons]
    by_cases hp : r.path = p
    · have hrest : ∀ r' ∈ rest, r'.path ≠ p := by
        intro r' hr' heq
        exact h.1 (hp ▸ heq ▸ List.mem_map_of_mem _ hr')
      rw [lookup_semFold_of_not_mem _ _ _ _ hrest]
      subst hp
      rw [msLookup_msInsert_self]
      simp [findByPath]
    · rw [ih _ h.2]
      simp only [findByPath, if_neg hp]
      cases hfind : findByPath p rest with
      | some r' => simp
      | none => simp [msLookup_msInsert_ne hp]

theorem lookup_mergeTextStep_ne (hyb : Bool) {p : String}
    (m : List (String × SearchResult)) {r : SearchResult} (h : r.path ≠ p) :
    msLookup p (mergeTextStep hyb m r) = msLookup p m := by
  unfold mergeTextStep
  cases msLookup r.path m <;> simp [msLookup_msInsert_ne h]

theorem lookup_textFold_of_not_mem (hyb : Bool) (txt : List SearchResult)
    (m : List (String × SearchResult)) (p : String) (h : ∀ r ∈ txt, r.path ≠ p) :
    msLookup p (txt.foldl (mergeTextStep hyb) m) = msLookup p m := by
  induction txt generalizing m with
  | nil => rfl
  | cons r rest ih =>
    rw [List.foldl_cons, ih _ (fun r' hr' => h r' (List.mem_cons_of_mem _ hr')),
      lookup_mergeTextStep_ne _ _ (h r (List.mem_cons_self _ _))]

theorem lookup_textFold (hyb : Bool) (txt : List SearchResult)
    (m : List (String × SearchResult)) (p : String)
    (h : (txt.map (fun r => r.path)).Nodup) :
    msLookup p (txt.foldl (mergeTextStep hyb) m) =
      match findByPath p txt with
      | some rt =>
          some (match msLookup p m with
                | some ex => fuseBoth hyb ex rt
                | none => textOnlyEntry hyb rt)
      | none => msLookup p m := by
  induction txt generalizing m with
  | nil => rfl
  | cons r rest ih =>
    rw [List.map_cons, List.nodup_cons] at h
    rw [List.foldl_cons]
    by_cases hp : r.path = p
    · have hrest : ∀ r' ∈ rest, r'.path ≠ p := by
        intro r' hr' heq
        exact h.1 (hp ▸ heq ▸ List.mem_map_of_mem _ hr')
      rw [lookup_textFold_of_not_mem _ _ _ _ hrest]
      simp only [findByPath, if_pos hp]
      unfold mergeTextStep
      rw [hp]
      cases hm : msLookup p m with
      | some ex => simp [hp ▸ msLookup_msInsert_self r.path (fuseBoth hyb ex r) m]
      | none => simp [hp ▸ msLookup_msInsert_self r.path (textOnlyEntry hyb r) m]
    · rw [ih _ h.2, lookup_mergeTextStep_ne _ _ hp]
      simp only [findByPath, if_neg hp]

/-- Concrete semantic result of the worked example of the spec: scored 0.9
by semantic search, modified 60 days ago. -/
def c1sem : SearchResult := ⟨"doc.md", 0.9, .semantic, none, 60⟩

/-- Concrete text result of the worked example of the spec: scored 0.6 by
text search, modified 60 days ago. -/
def c1txt : SearchResult := ⟨"doc.md", 0.6, .fullText, some "rust", 60⟩

/-- C1: in `merge_search_results`, a document present in both result sets
receives fused score `(semantic_score + text_score * 0.8) * hybrid_boost`
with `hybrid_boost = 1.2` exactly when both a query vector and query text
were supplied (else `1.0`), and its match type becomes `Hybrid`; a
text-only hit is inserted with its score `× 0.8`; a vector-only hit keeps
its native score.  In particular a document scored 0.9 semantically and 0.6
textually under a true hybrid query, modified 60 days ago (no recency
multiplier), ends the merge with fused score `(0.9 + 0.6*0.8)*1.2 = 1.656`
and match type `Hybrid`. -/
theorem C1_merge_fusion (sem txt : List SearchResult) (hyb : Bool) (p : String)
    (hs : (sem.map (fun r => r.path)).Nodup) (ht : (txt.map (fun r => r.path)).Nodup) :
    (msLookup p (resultMap sem txt hyb) =
      match findByPath p sem, findByPath p txt with
      | some rs, some rt =>
          some { rs with
                 score := (rs.score + rt.score * 0.8) * hybridBoost hyb
                 matchType := .hybrid
                 matchedContent := rs.matchedContent <|> rt.matchedContent }
      | some rs, none => some (semEntry hyb rs)
      | none, some rt => some (textOnlyEntry hyb rt)
      | none, none => none) ∧
    mergeFinal 10 ((resultMap [c1sem] [c1txt] true).map Prod.snd) =
      [⟨"doc.md", 1.656, .hybrid, some "rust", 60⟩] := by
  constructor
  · unfold resultMap
    rw [lookup_textFold hyb txt _ p ht, lookup_semFold hyb sem [] p hs]
    cases hsem : findByPath p sem with
    | some rs =>
        cases htxt : findByPath p txt with
        | some rt =>
            simp only [fuseBoth, semEntry]
            norm_num
        | none => simp [msLookup]
    | none =>
        cases htxt : findByPath p txt with
        | some rt => simp [msLookup]
        | none => simp [msLookup]
  · norm_num [resultMap, mergeTextStep, msInsert, msLookup, semEntry, fuseBoth,
      mergeFinal, applyRecency, stableSortDescBy, insertDescBy, hybridBoost,
      c1sem, c1txt]

/-- Witness for C1: the characterization applied to the worked example. -/
theorem C1_merge_fusion_witness :
    msLookup "doc.md" (resultMap [c1sem] [c1txt] true) =
      some { c1sem with
             score := (c1sem.score + c1txt.score * 0.8) * hybridBoost true
             matchType := .hybrid
             matchedContent := c1sem.matchedContent <|> c1txt.matchedContent } := by
  have h := (C1_merge_fusion [c1sem] [c1txt] true "doc.md" (by simp) (by simp)).1
  simpa [c1sem, c1txt, findByPath] using h

/-! ## Sortedness of the final ranking (C7) -/

theorem mem_insertDescBy {α : Type} (f : α → ℚ) (r y : α) (l : List α) :
    y ∈ insertDescBy f r l ↔ y = r ∨ y ∈ l := by
  induction l with
  | nil => simp [insertDescBy]
  | cons x xs ih =>
    by_cases h : f r ≤ f x
    · simp only [insertDescBy, if_pos h, List.mem_cons, ih]
      tauto
    · simp only [insertDescBy, if_neg h, List.mem_cons]

theorem pairwise_insertDescBy {α : Type} (f : α → ℚ) (r : α) (l : List α)
    (h : l.Pairwise (fun a b => f b ≤ f a)) :
    (insertDescBy f r l).Pairwise (fun a b => f b ≤ f a) := by
  induction l with
  | nil => simp [insertDescBy]
  | cons x xs ih =>
    rw [List.pairwise_cons] at h
    by_cases hc : f r ≤ f x
    · simp only [insertDescBy, if_pos hc]
      rw [List.pairwise_cons]
      refine ⟨fun y hy => ?_, ih h.2⟩
      rcases (mem_insertDescBy f r y xs).1 hy with h1 | h2
      · exact h1 ▸ hc
      · exact h.1 y h2
    · simp only [insertDescBy, if_neg hc]
      push_neg at hc
      rw [List.pairwise_cons]
      refine ⟨fun y hy => ?_, List.pairwise_cons.2 h⟩
      rcases List.mem_cons.1 hy with h1 | h2
      · exact h1 ▸ le_of_lt hc
      · exact le_trans (h.1 y h2) (le_of_lt hc)

theorem pairwise_stableSortDescBy {α : Type} (f : α → ℚ) (l : List α) :
    (stableSortDescBy f l).Pairwise (fun a b => f b ≤ f a) := by
  suffices h : ∀ acc : List α, acc.Pairwise (fun a b => f b ≤ f a) →
      (l.foldl (fun acc r => insertDescBy f r acc) acc).Pairwise (fun a b => f b ≤ f a) by
    exact h [] (by simp)
  induction l with
  | nil =>
    intro acc h
    simpa using h
  | cons x xs ih =>
    intro acc h
    exact ih _ (pairwise_insertDescBy f x acc h)

/-- Semantic result "a.md", score 0.5, old document (tie candidate). -/
def c7a : SearchResult := ⟨"a.md", 0.5, .semantic, none, 60⟩

/-- Semantic result "b.md", score 0.5, old document (tie candidate). -/
def c7b : SearchResult := ⟨"b.md", 0.5, .semantic, none, 60⟩

/-- The values of `result_map` for the tie scenario, in one of the
iteration orders `HashMap::into_values` may produce. -/
def c7values : List SearchResult := (resultMap [c7a, c7b] [] false).map Prod.snd

/-- C7 counterexample: the claim that `merge_search_results` is
deterministic fails — the output order of candidates with exactly equal
fused scores depends on the incidental `HashMap::into_values` iteration
order.  Both `c7values` and its reverse are legitimate iteration orders of
the same `result_map` (Rust's `HashMap` uses a randomly seeded hasher, so
both occur across runs), yet the merge tail produces different rankings. -/
theorem C7_tie_order_counterexample :
    c7values.reverse.Perm c7values ∧
    mergeFinal 2 c7values ≠ mergeFinal 2 c7values.reverse := by
  have hmap : resultMap [c7a, c7b] [] false =
      [("a.md", semEntry false c7a), ("b.md", semEntry false c7b)] := by
    simp [resultMap, msInsert, c7a, c7b]
  constructor
  · exact List.reverse_perm c7values
  · have hab : semEntry false c7a ≠ semEntry false c7b := by
      simp [semEntry, c7a, c7b]
    simp only [c7values, hmap, List.map_cons, List.map_nil, List.reverse_cons,
      List.reverse_nil, List.nil_append, List.cons_append, mergeFinal,
      stableSortDescBy, List.foldl_cons, List.foldl_nil]
    norm_num [applyRecency, insertDescBy, semEntry, c7a, c7b]
    decide

/-- C7 (amended): for every pair of over-fetched result lists and every
iteration order of the merged map, the final list of
`merge_search_results` is sorted by fused score descending and truncated
to `limit`; the order of equal-score candidates, however, follows the
iteration order and is not deterministic (see the counterexample). -/
theorem C7_sorted_truncated (sem txt : List SearchResult) (hyb : Bool) (limit : ℕ)
    (values : List SearchResult)
    (_hperm : values.Perm ((resultMap sem txt hyb).map Prod.snd)) :
    (mergeFinal limit values).Pairwise (fun a b => b.score ≤ a.score) ∧
    (mergeFinal limit values).length ≤ limit := by
  constructor
  · exact List.Pairwise.sublist (List.take_sublist _ _)
      (pairwise_stableSortDescBy (fun r => r.score) (values.map applyRecency))
  · simp only [mergeFinal]
    exact List.length_take_le _ _

/-- Witness for C7 (amended) at the tie scenario. -/
theorem C7_sorted_truncated_witness :
    (mergeFinal 2 c7values).Pairwise (fun a b => b.score ≤ a.score) ∧
    (mergeFinal 2 c7values).length ≤ 2 :=
  C7_sorted_truncated [c7a, c7b] [] false 2 c7values (List.Perm.refl _)

/-! ## `hybrid_search` error handling (C8) and scan scheduling (C9) -/

/-- How `hybrid_search` consumes one backend scan outcome: `Ok(results)`
keeps the results, `Err(e)` only runs `error!(...)` — the error is logged
and dropped, leaving the initial empty result vector. -/
def scanOrEmpty (outcome : Except String (List SearchResult)) : List SearchResult :=
  match outcome with
  | .ok rs => rs
  | .error _ => []

/-- `HybridStorageEngine::hybrid_search`, with the two backend scan
outcomes as parameters (each is consulted only when the corresponding
query component was supplied); the merge itself is infallible, so the
function always returns `Ok`. -/
def hybrid_search (queryVector queryText : Bool)
    (semOutcome txtOutcome : Except String (List SearchResult)) (limit : ℕ) :
    Except String (List SearchResult) :=
  let semanticResults := if queryVector then scanOrEmpty semOutcome else []
  let textResults := if queryText then scanOrEmpty txtOutcome else []
  .ok (mergeFinal limit
    ((resultMap semanticResults textResults (queryVector && queryText)).map Prod.snd))

/-- A text result surviving a failed semantic scan. -/
def c8txt : SearchResult := ⟨"t.md", 0.5, .fullText, some "q", 60⟩

/-- C8 counterexample: when the semantic scan fails inside a true hybrid
request, `hybrid_search` does not report the failure — it returns `Ok`
with a result list computed from the surviving text backend alone (the
text-only entry, score `0.5 × 0.8 = 0.4`, match type `Hybrid`). -/
theorem C8_swallowed_error_counterexample :
    hybrid_search true true (.error "semantic search failed") (.ok [c8txt]) 10 =
      .ok [⟨"t.md", 0.4, .hybrid, some "q", 60⟩] := by
  norm_num [hybrid_search, scanOrEmpty, resultMap, mergeTextStep, msInsert, msLookup,
    textOnlyEntry, mergeFinal, applyRecency, stableSortDescBy, insertDescBy, c8txt]

/-- C8 (amended): `hybrid_search` never propagates a backend failure to its
caller: it always returns `Ok`, and a failed scan is indistinguishable from
a scan that returned no results. -/
theorem C8_failure_ignored (qv qt : Bool) (e : String)
    (semOutcome txtOutcome : Except String (List SearchResult)) (limit : ℕ) :
    (hybrid_search qv qt semOutcome txtOutcome limit).isOk = true ∧
    hybrid_search qv qt (.error e) txtOutcome limit =
      hybrid_search qv qt (.ok []) txtOutcome limit ∧
    hybrid_search qv qt semOutcome (.error e) limit =
      hybrid_search qv qt semOutcome (.ok []) limit := by
  refine ⟨rfl, ?_, ?_⟩ <;> simp [hybrid_search, scanOrEmpty]

/-- Scheduling events of the two backend scans of `hybrid_search`. -/
inductive ScanEvent where
  | issueVector
  | completeVector
  | issueText
  | completeText
deriving DecidableEq, Repr

/-- The schedule `hybrid_search` executes: the semantic scan is awaited to
completion before the text scan is issued (`.await` on each call in
sequence, unlike `initialize`/`optimize_all`/`backup_all` which use
`tokio::join!`). -/
def hybridSearchSchedule (queryVector queryText : Bool) : List ScanEvent :=
  (if queryVector then [.issueVector, .completeVector] else []) ++
  (if queryText then [.issueText, .completeText] else [])

/-- Timing semantics of a schedule: arguments are the elapsed time and the
issue times of the two scans; issuing is instantaneous, completing waits
until the scan's issue time plus its duration. -/
def scheduleElapsed (dv dt : ℕ) : List ScanEvent → ℕ → ℕ → ℕ → ℕ
  | [], t, _, _ => t
  | .issueVector :: es, t, _, st => scheduleElapsed dv dt es t t st
  | .completeVector :: es, t, sv, st => scheduleElapsed dv dt es (max t (sv + dv)) sv st
  | .issueText :: es, t, sv, _ => scheduleElapsed dv dt es t sv t
  | .completeText :: es, t, sv, st => scheduleElapsed dv dt es (max t (st + dt)) sv st

/-- Total latency of `hybrid_search`'s scan phase under its schedule. -/
def hybridSearchLatency (queryVector queryText : Bool) (dv dt : ℕ) : ℕ :=
  scheduleElapsed dv dt (hybridSearchSchedule queryVector queryText) 0 0 0

/-- C9 counterexample: with both scans taking 1 time unit, the scan phase
of `hybrid_search` takes 2 units, not `max 1 1 = 1` — the claim that the
scans run in parallel fails. -/
theorem C9_parallel_counterexample :
    hybridSearchLatency true true 1 1 = 2 ∧ hybridSearchLatency true true 1 1 ≠ max 1 1 := by
  decide

/-- C9 (amended): for a request supplying both a vector and text, the
schedule is strictly sequential — the vector scan completes before the
text scan is issued — and total scan latency is the sum of the two scan
durations, not their maximum. -/
theorem C9_sequential_latency (dv dt : ℕ) :
    hybridSearchSchedule true true =
      [.issueVector, .completeVector, .issueText, .completeText] ∧
    hybridSearchLatency true true dv dt = dv + dt := by
  refine ⟨rfl, ?_⟩
  simp only [hybridSearchLatency, hybridSearchSchedule, scheduleElapsed]
  omega

/-! ## Lance vector store (C2, C3, C4) -/

/-- A row of the Lance document-embeddings dataset (the columns relevant
here: `document_id` and the embedding vector). -/
structure DocEmbeddingRow where
  documentId : String
  embedding : List ℚ
deriving DecidableEq, Repr

/-- `DocumentEmbeddings` (`storage/mod.rs`), vector entries as rationals. -/
structure DocumentEmbeddings where
  document_vector : List ℚ
  model_name : String
  embedding_dimension : ℕ
  checksum : String
deriving DecidableEq, Repr

/-- `LanceStore::store_document_embeddings`: the dimension check `bail!`s
before the dataset is read or written; on success one row is appended
(`WriteMode::Append`).  Returns the call outcome together with the rows of
the document dataset after the call. -/
def store_document_embeddings (dim : ℕ) (rows : List DocEmbeddingRow) (docId : String)
    (emb : DocumentEmbeddings) : Except String Unit × List DocEmbeddingRow :=
  if emb.document_vector.length ≠ dim then
    (.error "Invalid vector dimension", rows)
  else
    (.ok (), rows ++ [⟨docId, emb.document_vector⟩])

/-- C4: a `DocumentEmbeddings` whose vector length differs from the
configured dimension is rejected before any write, and the dataset rows
are unchanged by the failed call. -/
theorem C4_wrong_dimension_rejected (dim : ℕ) (rows : List DocEmbeddingRow)
    (docId : String) (emb : DocumentEmbeddings)
    (h : emb.document_vector.length ≠ dim) :
    (store_document_embeddings dim rows docId emb).1 = .error "Invalid vector dimension" ∧
    (store_document_embeddings dim rows docId emb).2 = rows := by
  simp [store_document_embeddings, h]

/-- Witness for C4: a 2-entry vector against a dimension-3 store. -/
theorem C4_wrong_dimension_rejected_witness :
    (store_document_embeddings 3 [⟨"a.md", [1, 1, 1]⟩] "b.md" ⟨[1, 2], "m", 3, "c"⟩).1 =
      .error "Invalid vector dimension" ∧
    (store_document_embeddings 3 [⟨"a.md", [1, 1, 1]⟩] "b.md" ⟨[1, 2], "m", 3, "c"⟩).2 =
      [⟨"a.md", [1, 1, 1]⟩] :=
  C4_wrong_dimension_rejected 3 [⟨"a.md", [1, 1, 1]⟩] "b.md" ⟨[1, 2], "m", 3, "c"⟩ (by decide)

/-- The fields of `BlockEmbedding` (`storage/mod.rs`) that
`store_block_embeddings` consumes. -/
structure BlockEmbedding where
  block_id : String
  content : String
  vector : List ℚ
deriving DecidableEq, Repr

/-- A row of the Lance block-embeddings dataset. -/
structure BlockRow where
  blockId : String
  documentId : String
  content : String
  vector : List ℚ
deriving DecidableEq, Repr

/-- `LanceStore::store_block_embeddings`: wrong-dimension blocks are
skipped with a warning (`continue`); an all-invalid or empty batch
returns early with `Ok`.  The Arrow list-array offsets, however, are
built from `num_blocks = blocks.len()` — the ORIGINAL count — while the
flattened `embedding_data` holds only the kept blocks' values, so
`ListArray::new` fails (panics) whenever the final offset
`blocks.len() * dim` exceeds the values length, and `RecordBatch::try_new`
would fail on the column length mismatch (`kept` vs `blocks.len()`);
both failure modes are modelled as errors. -/
def store_block_embeddings (dim : ℕ) (rows : List BlockRow) (docId : String)
    (blocks : List BlockEmbedding) : Except String (List BlockRow) :=
  if blocks.isEmpty then .ok rows
  else
    let kept := blocks.filter (fun b => b.vector.length == dim)
    if kept.isEmpty then .ok rows
    else
      let embeddingData := kept.foldl (fun acc b => acc ++ b.vector) []
      let finalOffset := blocks.length * dim
      if embeddingData.length < finalOffset then
        .error "ListArray offsets exceed values length"
      else if kept.length ≠ blocks.length then
        .error "RecordBatch columns have differing lengths"
      else
        .ok (rows ++ kept.map (fun b => ⟨b.block_id, docId, b.content, b.vector⟩))

/-- A mixed batch for a dimension-2 store: one invalid block (length-1
vector) and one valid block. -/
def c3blocks : List BlockEmbedding := [⟨"b1", "one", [1]⟩, ⟨"b2", "two", [1, 2]⟩]

/-- C3: on a batch containing one wrong-dimension and one valid block, the
call fails (invalid Arrow list-array offsets) instead of partially
succeeding with the valid block stored; the second conjunct checks that
the batch really mixes exactly one skipped and one kept block. -/
theorem C3_store_block_embeddings_eval :
    store_block_embeddings 2 [] "doc.md" c3blocks =
      .error "ListArray offsets exceed values length" ∧
    c3blocks.filter (fun b => b.vector.length == 2) = [⟨"b2", "two", [1, 2]⟩] := by
  constructor <;> rfl

/-- The columns of the DuckDB `documents` table that C2 consults. -/
structure DocumentRow where
  path : String
  title : String
deriving DecidableEq, Repr

/-- `DuckDBStore::remove_document`: `DELETE FROM documents WHERE path = ?`
(dependent rows cascade; only the `documents` rows matter here). -/
def duckdb_remove_document (rows : List DocumentRow) (p : String) : List DocumentRow :=
  rows.filter (fun r => ! (r.path == p))

/-- `DuckDBStore::get_document`: point lookup by path;
`QueryReturnedNoRows` is mapped to `Ok(None)`. -/
def duckdb_get_document (rows : List DocumentRow) (p : String) : Option DocumentRow :=
  rows.find? (fun r => r.path == p)

/-- `LanceStore::remove_document` — the source only emits
"deletion from Lance not fully implemented - requires dataset rewrite"
warnings for both datasets and returns `Ok(())`: neither the document nor
the block dataset is modified, and no tombstone is recorded. -/
def lance_remove_document (docRows : List DocEmbeddingRow) (blockRows : List BlockRow)
    (_path : String) : Except String (List DocEmbeddingRow × List BlockRow) :=
  .ok (docRows, blockRows)

/-- Squared L2 distance, the default metric of `Dataset::scan().nearest`. -/
def distL2Sq (u v : List ℚ) : ℚ := ((u.zip v).map (fun x => (x.1 - x.2) ^ 2)).sum

/-- `LanceStore::search_documents`: nearest-neighbor scan over the document
dataset — hits ordered by ascending distance, at most `limit` of them,
restricted by the `distance_threshold` that `semantic_search` passes —
each converted to `(document_id, 1 - distance)`. -/
def search_documents (docRows : List DocEmbeddingRow) (q : List ℚ) (limit : ℕ)
    (threshold : ℚ) : List (String × ℚ) :=
  (((stableSortDescBy (fun r => - distL2Sq q r.embedding) docRows).take limit).filter
      (fun r => decide (distL2Sq q r.embedding < threshold))).map
    (fun r => (r.documentId, 1 - distL2Sq q r.embedding))

/-- `LanceStore::search_blocks`: the analogous scan over the block
dataset, keyed by the owning document. -/
def search_blocks (blockRows : List BlockRow) (q : List ℚ) (limit : ℕ)
    (threshold : ℚ) : List (String × ℚ) :=
  (((stableSortDescBy (fun r => - distL2Sq q r.vector) blockRows).take limit).filter
      (fun r => decide (distL2Sq q r.vector < threshold))).map
    (fun r => (r.documentId, 1 - distL2Sq q r.vector))

/-- One step of the block loop of `LanceStore::combine_search_results`:
a document already present gets
`score = max(existing + block_score * 0.8, existing)`; a block-only hit is
inserted at weight `× 0.9`. -/
def combineStep (m : List (String × ℚ)) (r : String × ℚ) : List (String × ℚ) :=
  match msLookup r.1 m with
  | some ex => msInsert r.1 (max (ex + r.2 * 0.8) ex) m
  | none => msInsert r.1 (r.2 * 0.9) m

/-- `LanceStore::combine_search_results`: document-level hits inserted
first, block-level hits merged in, then sort by score descending and
truncate (values taken in the association order of the map). -/
def combine_search_results (docResults blockResults : List (String × ℚ)) (limit : ℕ) :
    List (String × ℚ) :=
  (stableSortDescBy Prod.snd
    (blockResults.foldl combineStep
      (docResults.foldl (fun m r => msInsert r.1 r.2 m) []))).take limit

/-- `LanceStore::semantic_search`: query-dimension validation, the two
scans (blocks over-fetched `limit * 2`), then the combine step. -/
def lance_semantic_search (dim : ℕ) (docRows : List DocEmbeddingRow)
    (blockRows : List BlockRow) (q : List ℚ) (limit : ℕ) (threshold : ℚ) :
    Except String (List (String × ℚ)) :=
  if q.length ≠ dim then .error "Invalid query vector dimension"
  else
    .ok (combine_search_results
      (search_documents docRows q limit threshold)
      (search_blocks blockRows q (limit * 2) threshold) limit)

/-- Document dataset after "a.md" was embedded with vector `[1, 0]`. -/
def c2docRows : List DocEmbeddingRow := [⟨"a.md", [1, 0]⟩]

/-- DuckDB rows after "a.md" was indexed. -/
def c2duckRows : List DocumentRow := [⟨"a.md", "A"⟩]

/-- C2: after `remove_document("a.md")` succeeds on both backends,
`get_document` indeed returns `None` (the DuckDB row is deleted), but the
Lance side removed nothing — not even a tombstone — so a subsequent
`semantic_search` with the stored vector still returns "a.md" (distance 0,
similarity 1): the claim's "never appears in any subsequent
semantic_search" fails on the code. -/
theorem C2_remove_document_eval :
    duckdb_get_document (duckdb_remove_document c2duckRows "a.md") "a.md" = none ∧
    lance_remove_document c2docRows [] "a.md" = .ok (c2docRows, []) ∧
    lance_semantic_search 2 c2docRows [] [1, 0] 10 (1 / 2) = .ok [("a.md", 1)] := by
  refine ⟨rfl, rfl, ?_⟩
  have hd : distL2Sq [1, 0] [(1 : ℚ), 0] = 0 := by
    norm_num [distL2Sq]
  norm_num [lance_semantic_search, search_documents, search_blocks,
    combine_search_results, combineStep, msInsert, msLookup, stableSortDescBy,
    insertDescBy, c2docRows, hd]

/-! ## Snippet generation (`DuckDBStore::generate_snippet`, C5 and C10) -/

/-- UTF-8 byte width of a character (what `str` byte offsets count). -/
def utf8Size (c : Char) : ℕ :=
  if c.toNat ≤ 0x7F then 1
  else if c.toNat ≤ 0x7FF then 2
  else if c.toNat ≤ 0xFFFF then 3
  else 4

/-- Char-wise model of `str::to_lowercase`, written out as the ASCII case
table.  It is exact for ASCII characters and for characters that are their
own lowercase (every character used in this development); the full Unicode
special-casing tables are out of scope of the embedding. -/
def rustToLower (c : Char) : Char :=
  match c with
  | 'A' => 'a' | 'B' => 'b' | 'C' => 'c' | 'D' => 'd' | 'E' => 'e' | 'F' => 'f'
  | 'G' => 'g' | 'H' => 'h' | 'I' => 'i' | 'J' => 'j' | 'K' => 'k' | 'L' => 'l'
  | 'M' => 'm' | 'N' => 'n' | 'O' => 'o' | 'P' => 'p' | 'Q' => 'q' | 'R' => 'r'
  | 'S' => 's' | 'T' => 't' | 'U' => 'u' | 'V' => 'v' | 'W' => 'w' | 'X' => 'x'
  | 'Y' => 'y' | 'Z' => 'z'
  | other => other

/-- Byte length of a string (`str::len`). -/
def byteLen (s : List Char) : ℕ := (s.map utf8Size).sum

/-- Character index of the first occurrence of `pat` in `s`.  `str::find`
returns a byte offset, but in valid UTF-8 every match of the pattern is
character-aligned (UTF-8 is self-synchronizing), so the byte offset equals
the byte length of the prefix before this character index. -/
def findSub (pat : List Char) : List Char → Option ℕ
  | [] => if pat.isPrefixOf ([] : List Char) then some 0 else none
  | c :: rest =>
    if pat.isPrefixOf (c :: rest) then some 0
    else (findSub pat rest).map (fun i => i + 1)

/-- Drop `n` bytes from the front; `none` when `n` falls strictly inside a
character (where Rust's byte slicing panics) or past the end. -/
def dropBytes : List Char → ℕ → Option (List Char)
  | s, 0 => some s
  | [], _ + 1 => none
  | c :: rest, n + 1 =>
    if n + 1 < utf8Size c then none else dropBytes rest (n + 1 - utf8Size c)

/-- Take `n` bytes from the front; `none` on a non-boundary or overrun. -/
def takeBytes : List Char → ℕ → Option (List Char)
  | _, 0 => some []
  | [], _ + 1 => none
  | c :: rest, n + 1 =>
    if n + 1 < utf8Size c then none
    else (takeBytes rest (n + 1 - utf8Size c)).map (fun t => c :: t)

/-- `&content[a..b]` — `none` models the slicing panic (reversed range,
offset out of bounds, or offset not on a character boundary). -/
def byteSlice (s : List Char) (a b : ℕ) : Option (List Char) :=
  if b < a then none
  else (dropBytes s a).bind (fun t => takeBytes t (b - a))

/-- `DuckDBStore::generate_snippet`: the match position is the byte offset
of the first occurrence of the lowercased query in the lowercased body;
the window is `max_length/2` BYTES on each side of the match (the end
additionally offset by `query.len()` bytes of the original query and
clamped to the body's byte length); the window is sliced out of the
ORIGINAL body and decorated with `"..."` markers; without a match, the
first `max_length` CHARACTERS are returned.  `none` models the byte-slice
panic. -/
def generate_snippet (content query : List Char) (maxLength : ℕ) : Option (List Char) :=
  let queryLower := query.map rustToLower
  let contentLower := content.map rustToLower
  match findSub queryLower contentLower with
  | some i =>
    let pos := byteLen (contentLower.take i)
    let first := pos - maxLength / 2
    let stop := min (pos + byteLen query + maxLength / 2) (byteLen content)
    match byteSlice content first stop with
    | none => none
    | some core =>
      let withLead := if 0 < first then '.' :: '.' :: '.' :: core else core
      some (if stop < byteLen content then withLead ++ ['.', '.', '.'] else withLead)
  | none => some (content.take maxLength)

/-- The snippet algorithm as §4.1 of the spec words it, with the window
counted in CHARACTERS: first case-insensitive occurrence of the literal
query, `max_length/2` characters on each side of the match, an ellipsis
marker on each side where characters were cut, and the first `max_length`
characters as the no-match fallback. -/
def snippetSpec (content query : List Char) (maxLength : ℕ) : List Char :=
  let queryLower := query.map rustToLower
  let contentLower := content.map rustToLower
  match findSub queryLower contentLower with
  | some i =>
    let first := i - maxLength / 2
    let stop := min (i + query.length + maxLength / 2) content.length
    let core := (content.drop first).take (stop - first)
    let withLead := if 0 < first then '.' :: '.' :: '.' :: core else core
    if stop < content.length then withLead ++ ['.', '.', '.'] else withLead
  | none => content.take maxLength

/-- Body of the C5 counterexample: 150 two-byte characters, then the match. -/
def c5content : List Char := List.replicate 150 'α' ++ ['b']

set_option maxRecDepth 40000 in
/-- C5 counterexample: on a non-ASCII body the window of
`generate_snippet` is 100 BYTES each side (50 two-byte characters), while
the spec's character-based description predicts 100 characters — the two
disagree, so the claimed algorithm does not match the code. -/
theorem C5_snippet_counterexample :
    generate_snippet c5content ['b'] 200 =
      some ('.' :: '.' :: '.' :: (List.replicate 50 'α' ++ ['b'])) ∧
    snippetSpec c5content ['b'] 200 =
      '.' :: '.' :: '.' :: (List.replicate 100 'α' ++ ['b']) ∧
    generate_snippet c5content ['b'] 200 ≠ some (snippetSpec c5content ['b'] 200) := by
  refine ⟨?_, ?_, ?_⟩ <;> decide

/-- Body of the C10 failing input: 100 bytes of two-byte characters, then
`"xb"`; the match sits at byte offset 101, so the window start falls at
byte 1, strictly inside the first character. -/
def c10content : List Char := List.replicate 50 'α' ++ ['x', 'b']

set_option maxRecDepth 40000 in
/-- C10: `generate_snippet` is not total — on this body/query the window
start is not a character boundary of the body and the byte slice panics
(modelled by `none`); the first conjunct shows the query does occur, i.e.
the panic happens on the regular match path. -/
theorem C10_snippet_panic_eval :
    findSub (['b'].map rustToLower) (c10content.map rustToLower) = some 51 ∧
    generate_snippet c10content ['b'] 200 = none := by
  refine ⟨?_, ?_⟩ <;> decide

/-! ### ASCII equivalence of the byte- and character-based descriptions -/

theorem utf8Size_eq_one {c : Char} (h : c.toNat ≤ 127) : utf8Size c = 1 := by
  simp [utf8Size, h]

theorem rustToLower_ascii {c : Char} (h : c.toNat ≤ 127) : (rustToLower c).toNat ≤ 127 := by
  unfold rustToLower
  split <;> first | decide | exact h

theorem byteLen_ascii {s : List Char} (h : ∀ c ∈ s, c.toNat ≤ 127) :
    byteLen s = s.length := by
  induction s with
  | nil => rfl
  | cons c rest ih =>
    have h1 := utf8Size_eq_one (h c (List.mem_cons_self _ _))
    have h2 := ih (fun x hx => h x (List.mem_cons_of_mem _ hx))
    simp only [byteLen, List.map_cons, List.sum_cons, List.length_cons] at h2 ⊢
    omega

theorem dropBytes_ascii {s : List Char} (h : ∀ c ∈ s, c.toNat ≤ 127) (n : ℕ) :
    dropBytes s n = if n ≤ s.length then some (s.drop n) else none := by
  induction s generalizing n with
  | nil =>
    cases n with
    | zero => simp [dropBytes]
    | succ m => simp [dropBytes]
  | cons c rest ih =>
    cases n with
    | zero => simp [dropBytes]
    | succ m =>
      have h1 := utf8Size_eq_one (h c (List.mem_cons_self _ _))
      simp only [dropBytes, h1]
      rw [if_neg (by omega), ih (fun x hx => h x (List.mem_cons_of_mem _ hx))]
      simp only [Nat.add_sub_cancel, List.drop_succ_cons, List.length_cons]
      by_cases hm : m ≤ rest.length
      · rw [if_pos hm, if_pos (by omega)]
      · rw [if_neg hm, if_neg (by omega)]

theorem takeBytes_ascii {s : List Char} (h : ∀ c ∈ s, c.toNat ≤ 127) (n : ℕ) :
    takeBytes s n = if n ≤ s.length then some (s.take n) else none := by
  induction s generalizing n with
  | nil =>
    cases n with
    | zero => simp [takeBytes]
    | succ m => simp [takeBytes]
  | cons c rest ih =>
    cases n with
    | zero => simp [takeBytes]
    | succ m =>
      have h1 := utf8Size_eq_one (h c (List.mem_cons_self _ _))
      simp only [takeBytes, h1]
      rw [if_neg (by omega), ih (fun x hx => h x (List.mem_cons_of_mem _ hx))]
      simp only [Nat.add_sub_cancel, List.take_succ_cons, List.length_cons]
      by_cases hm : m ≤ rest.length
      · rw [if_pos hm, if_pos (by omega)]
        rfl
      · rw [if_neg hm, if_neg (by omega)]
        rfl

theorem byteSlice_ascii {s : List Char} (h : ∀ c ∈ s, c.toNat ≤ 127) {a b : ℕ}
    (hab : a ≤ b) (hb : b ≤ s.length) :
    byteSlice s a b = some ((s.drop a).take (b - a)) := by
  have hdrop : ∀ c ∈ s.drop a, c.toNat ≤ 127 := fun c hc => h c (List.mem_of_mem_drop hc)
  rw [byteSlice, if_neg (by omega), dropBytes_ascii h, if_pos (by omega),
    Option.some_bind, takeBytes_ascii hdrop, if_pos (by simp [List.length_drop]; omega)]

theorem findSub_le_length (pat s : List Char) {i : ℕ} (h : findSub pat s = some i) :
    i ≤ s.length := by
  induction s generalizing i with
  | nil =>
    rw [findSub] at h
    split at h
    · simp only [Option.some.injEq] at h
      omega
    · exact absurd h (by simp)
  | cons c rest ih =>
    rw [findSub] at h
    split at h
    · simp only [Option.some.injEq] at h
      omega
    · rw [Option.map_eq_some'] at h
      obtain ⟨j, hj, rfl⟩ := h
      have := ih hj
      simp only [List.length_cons]
      omega

/-- C5 (amended): the snippet window is measured in bytes, not characters;
on an ASCII-only body and query the two coincide, so the character-based
description of the spec holds exactly there (and the function cannot
panic): `generate_snippet` returns precisely the spec's snippet. -/
theorem C5_snippet_ascii (content query : List Char) (maxLength : ℕ)
    (hc : ∀ c ∈ content, c.toNat ≤ 127) (hq : ∀ c ∈ query, c.toNat ≤ 127) :
    generate_snippet content query maxLength = some (snippetSpec content query maxLength) := by
  have hca : ∀ c ∈ content.map rustToLower, c.toNat ≤ 127 := by
    intro c hc'
    obtain ⟨x, hx, rfl⟩ := List.mem_map.1 hc'
    exact rustToLower_ascii (hc x hx)
  unfold generate_snippet snippetSpec
  cases hfind : findSub (query.map rustToLower) (content.map rustToLower) with
  | none => simp [hfind]
  | some i =>
    have hi : i ≤ content.length := by
      have := findSub_le_length _ _ hfind
      simpa using this
    have hpos : byteLen ((content.map rustToLower).take i) = i := by
      rw [byteLen_ascii (fun c hcm => hca c (List.mem_of_mem_take hcm))]
      simp [List.length_take]
      omega
    have hblq : byteLen query = query.length := byteLen_ascii hq
    have hblc : byteLen content = content.length := byteLen_ascii hc
    have hfs : i - maxLength / 2 ≤ min (i + query.length + maxLength / 2) content.length := by
      omega
    have hsl : min (i + query.length + maxLength / 2) content.length ≤ content.length :=
      min_le_right _ _
    have hslice := byteSlice_ascii hc hfs hsl
    simp only [hfind, hpos, hblq, hblc, hslice]

/-- Witness for C5 (amended): on an ASCII body with a differently-cased
ASCII query, code and spec description agree, ellipses included. -/
theorem C5_snippet_ascii_witness :
    generate_snippet "hello world hello".toList "WORLD".toList 6 =
      some (snippetSpec "hello world hello".toList "WORLD".toList 6) :=
  C5_snippet_ascii "hello world hello".toList "WORLD".toList 6 (by decide) (by decide)

/-! ## `VaultIndexer::index_file` re-index dirty check (C6) -/

/-- A row of the indexer's `file_index` table (`src/vault/indexer.rs`),
keyed by path. -/
structure FileIndexRow where
  hash : String
  size : ℕ
  modified : ℕ
  indexedAt : ℕ
deriving DecidableEq, Repr

/-- Outcome of `VaultIndexer::index_file`. -/
inductive IndexAction where
  | added
  | updated
  | skipped
deriving DecidableEq, Repr

/-- `VaultIndexer::index_file` for a regular, non-ignored file: the skip
test compares the RECORDED modified time and size against the file's
current ones (`existing.modified >= modified && existing.size ==
metadata.len()`); only when it fails is the content read and hashed,
after which the row is inserted or rewritten (`update_file_index` sets
hash, size, modified and a fresh `indexed_at`).  The content hash plays
no part in the skip decision. -/
def index_file (st : List (String × FileIndexRow)) (path : String)
    (mtime size : ℕ) (hash : String) (now : ℕ) :
    IndexAction × List (String × FileIndexRow) :=
  match msLookup path st with
  | some existing =>
    if mtime ≤ existing.modified ∧ existing.size = size then (.skipped, st)
    else (.updated, msInsert path ⟨hash, size, mtime, now⟩ st)
  | none => (.added, msInsert path ⟨hash, size, mtime, now⟩ st)

/-- Indexer state with one row: hash "h1", size 5, mtime 100. -/
def c6state : List (String × FileIndexRow) := [("n.md", ⟨"h1", 5, 100, 50⟩)]

/-- C6 counterexample: re-indexing "n.md" when its content hash ("h1") and
size (5) are both unchanged but its mtime advanced from 100 to 200 is NOT
a no-op — the dirty check consults the mtime, never the hash, so the row
is rewritten with a new `modified` and `indexed_at` and the stored state
differs from the state before the call. -/
theorem C6_reindex_counterexample :
    index_file c6state "n.md" 200 5 "h1" 300 =
      (.updated, [("n.md", ⟨"h1", 5, 200, 300⟩)]) ∧
    (index_file c6state "n.md" 200 5 "h1" 300).2 ≠ c6state := by
  refine ⟨?_, ?_⟩ <;> decide

/-- C6 (amended): the skip condition of a re-index is `current mtime ≤
recorded mtime ∧ recorded size = current size` — the content hash is not
consulted — and when it holds the call is a true no-op: the stored state
is returned unchanged. -/
theorem C6_skip_condition (st : List (String × FileIndexRow)) (path : String)
    (mtime size : ℕ) (hash : String) (now : ℕ) (existing : FileIndexRow)
    (hlook : msLookup path st = some existing)
    (hmt : mtime ≤ existing.modified) (hsz : existing.size = size) :
    index_file st path mtime size hash now = (.skipped, st) := by
  simp [index_file, hlook, hmt, hsz]

/-- Witness for C6 (amended): a file whose mtime regressed is skipped even
though the supplied hash ("h2") differs from the recorded one ("h1"). -/
theorem C6_skip_condition_witness :
    index_file c6state "n.md" 90 5 "h2" 300 = (.skipped, c6state) :=
  C6_skip_condition c6state "n.md" 90 5 "h2" 300 ⟨"h1", 5, 100, 50⟩
    (by decide) (by decide) (by decide)
